import Mathlib

/-!
Shallow embedding of the treasure-hunt task core
(`src/code/utilities/task.py` and the sampling part of
`src/code/utilities/config.py`), together with theorems settling the
frozen claims about the natural-language specification.

Conventions of the embedding:
* machine integers are `Nat`/`Int`; numpy arrays are `List`s;
* fallible operations (numpy `IndexError`, `ValueError`, a possibly
  diverging resampling loop) return `Option`;
* the Python dict of shortest distances is a function
  `Nat × Nat → Option Nat` (the string key `f'{a}_to_{b}'` is in
  bijection with the pair `(a, b)`, since `a` and `b` print without
  underscores).
-/

/-! ## Task engine dynamic state (`Task`, task.py lines 201-626)

Only the mutable per-trial fields that the claims touch are carried:
`s1_t` (current position), `s2_t` (current treasure location),
`s3_t` (current hiding-spot set), `node_colors`, `r_t` (reward flag).
Positions move by signed displacements, hence `Int`.
-/

structure TaskState where
  s1_t : Int
  s2_t : Int
  s3_t : List Int
  node_colors : List Nat
  r_t : Nat
deriving DecidableEq, Repr

/-- numpy-style element assignment `arr[idx] = v` for a 1-d array:
indices `0 ≤ idx < len` write directly, negative indices `-len ≤ idx < 0`
wrap around, anything else raises `IndexError` (modelled as `none`). -/
def npSetNat (l : List Nat) (idx : Int) (v : Nat) : Option (List Nat) :=
  if 0 ≤ idx ∧ idx < (l.length : Int) then
    some (l.set idx.toNat v)
  else if -(l.length : Int) ≤ idx ∧ idx < 0 then
    some (l.set ((l.length : Int) + idx).toNat v)
  else
    none

/-- `Task.eval_state_transition_f` (task.py lines 593-605): add the signed
displacement to the current position; after the informative action (0),
set `node_colors[s1_t]` to grey (1) if the position is not a hiding spot,
else to blue (2). The write indexes `node_colors` with the 1-based
position `s1_t` itself. -/
def eval_state_transition_f (action_t : Int) (st : TaskState) : Option TaskState :=
  if action_t = 0 then
    if st.s1_t + action_t ∉ st.s3_t then
      (npSetNat st.node_colors (st.s1_t + action_t) 1).map
        (fun nc => { st with s1_t := st.s1_t + action_t, node_colors := nc })
    else
      (npSetNat st.node_colors (st.s1_t + action_t) 2).map
        (fun nc => { st with s1_t := st.s1_t + action_t, node_colors := nc })
  else
    some { st with s1_t := st.s1_t + action_t }

/-- `Task.eval_reward_r` (task.py lines 607-613): reward flag is 1 iff the
current position equals the treasure location. -/
def eval_reward_r (st : TaskState) : TaskState :=
  { st with r_t := if st.s1_t = st.s2_t then 1 else 0 }

/-- `Task.eval_action` (task.py lines 615-626): perform the state
transition; re-evaluate the reward only when the action is a step
(`action_t ≠ 0`). -/
def eval_action (action_t : Int) (st : TaskState) : Option TaskState :=
  (eval_state_transition_f action_t st).map
    (fun st' => if action_t ≠ 0 then eval_reward_r st' else st')

/-- `Task.start_new_block` (task.py lines 563-570): bind the block's
hiding-spot row `state_values["s3"][block_number]`; nothing else is
touched. -/
def start_new_block (stateValues_s3 : List (List Int)) (st : TaskState)
    (block_number : Nat) : TaskState :=
  { st with s3_t := stateValues_s3.getD block_number [] }

/-- Color slot of 1-based node `p` under the observation convention of
`eval_obs_func_g` (`o_t[1:] = node_colors`, so column `color_p` of the
observation is `node_colors[p-1]`). -/
def nodeColor (st : TaskState) (p : Nat) : Option Nat :=
  st.node_colors.get? (p - 1)

/-- The four directional actions `{-dim, +1, +dim, -1}` (task.py line 236,
`self.A` without the informative action 0). -/
def dirMoves (dim : Nat) : List Int := [-(dim : Int), 1, (dim : Int), -1]

/-- A sequence of trial steps: `eval_action` applied over a list of
actions, aborting on an engine error. -/
def runActions (acts : List Int) (st : TaskState) : Option TaskState :=
  match acts with
  | [] => some st
  | a :: rest => (eval_action a st).bind (runActions rest)

section EngineSanity

example :
    eval_action 0 ⟨1, 3, [2, 3], [0, 0, 0, 0], 0⟩ =
      some ⟨1, 3, [2, 3], [0, 1, 0, 0], 0⟩ := by decide

example : eval_action 0 ⟨4, 2, [2, 3], [0, 0, 0, 0], 0⟩ = none := by decide

example :
    eval_action 1 ⟨1, 2, [2, 3], [0, 0, 0, 0], 0⟩ =
      some ⟨2, 2, [2, 3], [0, 0, 0, 0], 1⟩ := by decide

end EngineSanity

/-! ### Helper lemmas about the engine -/

lemma npSetNat_in_range (l : List Nat) (p : Nat) (v : Nat) (h : p < l.length) :
    npSetNat l (p : Int) v = some (l.set p v) := by
  unfold npSetNat
  rw [if_pos ⟨Int.ofNat_nonneg p, by exact_mod_cast h⟩]
  simp

lemma npSetNat_oob (l : List Nat) (p : Nat) (v : Nat) (h : l.length ≤ p) :
    npSetNat l (p : Int) v = none := by
  unfold npSetNat
  rw [if_neg, if_neg]
  · rintro ⟨-, h2⟩
    omega
  · rintro ⟨-, h2⟩
    have : (l.length : Int) ≤ (p : Int) := by exact_mod_cast h
    omega

/-- Drilling at an in-range 0-based index `p = s1_t` rewrites
`node_colors[p]` and changes nothing else. -/
lemma eval_f_drill (st : TaskState) (p : Nat) (hpos : st.s1_t = (p : Int))
    (hlt : p < st.node_colors.length) :
    eval_state_transition_f 0 st =
      some { st with
              node_colors :=
                st.node_colors.set p (if (p : Int) ∈ st.s3_t then 2 else 1) } := by
  have hset1 : npSetNat st.node_colors (p : Int) 1 =
      some (st.node_colors.set p 1) := npSetNat_in_range _ _ _ hlt
  have hset2 : npSetNat st.node_colors (p : Int) 2 =
      some (st.node_colors.set p 2) := npSetNat_in_range _ _ _ hlt
  unfold eval_state_transition_f
  by_cases hmem : (p : Int) ∈ st.s3_t
  · simp [hpos, hmem, hset2]
  · simp [hpos, hmem, hset1]

lemma eval_f_drill_oob (st : TaskState) (p : Nat) (hpos : st.s1_t = (p : Int))
    (hge : st.node_colors.length ≤ p) :
    eval_state_transition_f 0 st = none := by
  have hset1 : npSetNat st.node_colors (p : Int) 1 = none :=
    npSetNat_oob _ _ _ hge
  have hset2 : npSetNat st.node_colors (p : Int) 2 = none :=
    npSetNat_oob _ _ _ hge
  unfold eval_state_transition_f
  by_cases hmem : (p : Int) ∈ st.s3_t
  · simp [hpos, hmem, hset2]
  · simp [hpos, hmem, hset1]

/-- Drilling never re-evaluates the reward: `eval_action 0` is exactly
the state transition. -/
lemma eval_action_drill (st : TaskState) :
    eval_action 0 st = eval_state_transition_f 0 st := by
  unfold eval_action
  cases eval_state_transition_f 0 st <;> simp

/-- A non-zero (directional) action adds its displacement and
re-evaluates the reward flag. -/
lemma eval_action_dir (st : TaskState) (a : Int) (ha : a ≠ 0) :
    eval_action a st =
      some { st with s1_t := st.s1_t + a,
                     r_t := if st.s1_t + a = st.s2_t then 1 else 0 } := by
  unfold eval_action eval_state_transition_f eval_reward_r
  simp [ha]

lemma dirMoves_ne_zero {dim : Nat} {a : Int} (hdim : 1 ≤ dim)
    (ha : a ∈ dirMoves dim) : a ≠ 0 := by
  simp only [dirMoves, List.mem_cons, List.not_mem_nil, or_false] at ha
  rcases ha with rfl | rfl | rfl | rfl <;> omega

lemma runActions_dir {dim : Nat} (hdim : 1 ≤ dim) :
    ∀ acts : List Int, (∀ a ∈ acts, a ∈ dirMoves dim) → ∀ st : TaskState,
      acts ≠ [] →
      ∃ st', runActions acts st = some st' ∧ st'.s2_t = st.s2_t ∧
        st'.r_t = if st'.s1_t = st.s2_t then 1 else 0 := by
  intro acts
  induction acts with
  | nil => intro _ st h; exact absurd rfl h
  | cons a rest ih =>
    intro hall st _
    have ha0 : a ≠ 0 := dirMoves_ne_zero hdim (hall a (by simp))
    have hstep := eval_action_dir st a ha0
    cases rest with
    | nil =>
      refine ⟨{ st with s1_t := st.s1_t + a,
                        r_t := if st.s1_t + a = st.s2_t then 1 else 0 },
        ?_, rfl, rfl⟩
      show (eval_action a st).bind _ = _
      rw [hstep]
      rfl
    | cons b rest' =>
      obtain ⟨st', h1, h2, h3⟩ :=
        ih (fun x hx => hall x (by simp [hx]))
          { st with s1_t := st.s1_t + a,
                    r_t := if st.s1_t + a = st.s2_t then 1 else 0 }
          (by simp)
      refine ⟨st', ?_, h2, h3⟩
      show (eval_action a st).bind _ = _
      rw [hstep]
      exact h1

/-! ### Claim C4 -/

/-- C4 counterexample: `start_new_block` binds the configured hiding-spot
row but does not reset `node_colors`: a grey color accumulated before the
call survives it, refuting "every entry of node_colors equals
'unvisited' (0) regardless of the colors accumulated before the call". -/
theorem c4_counterexample :
    start_new_block [[2, 3]] ⟨1, 2, [2], [1, 0, 0, 0], 0⟩ 0 =
      ⟨1, 2, [2, 3], [1, 0, 0, 0], 0⟩ ∧
    ¬ (∀ c ∈ (start_new_block [[2, 3]] ⟨1, 2, [2], [1, 0, 0, 0], 0⟩
          0).node_colors, c = 0) := by
  decide

/-- C4 (amended): after `start_new_block(block_number)`, the current
hiding-spot set `s3_t` equals the configuration's `s3` row for that
block, and every other dynamic field — in particular the node-color
array — is left exactly as it was (no reset to "unvisited" occurs). -/
theorem c4_amended (stateValues_s3 : List (List Int)) (st : TaskState)
    (b : Nat) :
    (start_new_block stateValues_s3 st b).s3_t = stateValues_s3.getD b [] ∧
    (start_new_block stateValues_s3 st b).node_colors = st.node_colors ∧
    (start_new_block stateValues_s3 st b).s1_t = st.s1_t ∧
    (start_new_block stateValues_s3 st b).s2_t = st.s2_t ∧
    (start_new_block stateValues_s3 st b).r_t = st.r_t :=
  ⟨rfl, rfl, rfl, rfl, rfl⟩

/-! ### Claim C5 -/

/-- C5 counterexample: at position `p = 1` (not a hiding spot, node 1
unvisited) the first drill writes `node_colors[1]`, so node 1's color
(slot `node_colors[0]` of the observation vector) stays "unvisited",
refuting "sets node p's color to 'grey'"; and at `p = n_nodes = 4` the
drill indexes out of bounds instead of coloring the node. -/
theorem c5_counterexample :
    eval_action 0 ⟨1, 3, [2, 3], [0, 0, 0, 0], 0⟩ =
      some ⟨1, 3, [2, 3], [0, 1, 0, 0], 0⟩ ∧
    nodeColor ⟨1, 3, [2, 3], [0, 1, 0, 0], 0⟩ 1 = some 0 ∧
    eval_action 0 ⟨4, 2, [2, 3], [0, 0, 0, 0], 0⟩ = none := by
  decide

/-- C5 (amended): for a position `p` with `1 ≤ p ≤ n_nodes - 1`, a drill
leaves the position unchanged and writes grey (1, if `p` is not a hiding
spot) or blue (2, if it is) into `node_colors` at 0-based index `p` —
that is, into the color slot of node `p + 1`, while node `p`'s own slot
is untouched; a second drill at the same position rewrites the same
value. For `p = n_nodes` the drill raises `IndexError` instead. -/
theorem c5_amended (n_nodes : Nat) (st : TaskState) (p : Nat)
    (hpos : st.s1_t = (p : Int)) (hp1 : 1 ≤ p)
    (hlen : st.node_colors.length = n_nodes) :
    (p < n_nodes →
      ∃ st', eval_action 0 st = some st' ∧
        st'.s1_t = st.s1_t ∧
        st'.node_colors =
          st.node_colors.set p (if (p : Int) ∈ st.s3_t then 2 else 1) ∧
        nodeColor st' (p + 1) =
          some (if (p : Int) ∈ st.s3_t then 2 else 1) ∧
        nodeColor st' p = nodeColor st p ∧
        ∃ st'', eval_action 0 st' = some st'' ∧
          nodeColor st'' (p + 1) =
            some (if (p : Int) ∈ st.s3_t then 2 else 1)) ∧
    (p = n_nodes → eval_action 0 st = none) := by
  constructor
  · intro hlt
    have hlt' : p < st.node_colors.length := by omega
    have h1 : eval_action 0 st =
        some { st with
                node_colors :=
                  st.node_colors.set p
                    (if (p : Int) ∈ st.s3_t then 2 else 1) } := by
      rw [eval_action_drill, eval_f_drill st p hpos hlt']
    refine ⟨_, h1, rfl, rfl, ?_, ?_, ?_⟩
    · show (st.node_colors.set p _).get? (p + 1 - 1) = _
      have : p + 1 - 1 = p := by omega
      rw [this, List.get?_set_eq_of_lt _ (by simpa using hlt')]
    · show (st.node_colors.set p _).get? (p - 1) = st.node_colors.get? (p - 1)
      exact List.get?_set_ne _ _ (by omega)
    · have hlt'' : p < (st.node_colors.set p
          (if (p : Int) ∈ st.s3_t then 2 else 1)).length := by
        simpa using hlt'
      have h2 := eval_f_drill
        { st with node_colors :=
            st.node_colors.set p (if (p : Int) ∈ st.s3_t then 2 else 1) }
        p hpos hlt''
      rw [eval_action_drill] at *
      refine ⟨_, h2, ?_⟩
      show ((st.node_colors.set p _).set p _).get? (p + 1 - 1) = _
      have hp : p + 1 - 1 = p := by omega
      rw [hp, List.get?_set_eq_of_lt _ (by simpa using hlt')]
  · intro he
    rw [eval_action_drill, eval_f_drill_oob st p hpos (by omega)]

/-- C5 witness: the amended theorem at a concrete engine state with four
nodes, position 1, hiding spots {2, 3}. -/
theorem c5_witness :
    ∃ st', eval_action 0 ⟨1, 3, [2, 3], [0, 0, 0, 0], 0⟩ = some st' ∧
      st'.s1_t = 1 ∧
      st'.node_colors = [0, 1, 0, 0] ∧
      nodeColor st' 2 = some 1 ∧
      nodeColor st' 1 = nodeColor ⟨1, 3, [2, 3], [0, 0, 0, 0], 0⟩ 1 ∧
      ∃ st'', eval_action 0 st' = some st'' ∧ nodeColor st'' 2 = some 1 :=
  (c5_amended 4 ⟨1, 3, [2, 3], [0, 0, 0, 0], 0⟩ 1 rfl (by decide) rfl).1
    (by decide)

/-! ### Claim C6 -/

/-- C6: after any directional action the reward flag equals 1 iff the new
position is the treasure location; a drill leaves the reward flag
unchanged; and along any nonempty sequence of directional actions every
reached state carries `r_t = 1` exactly when its position equals the
round's treasure location (so the reward fires exactly on the trial where
the position becomes the treasure location, and is 0 on all prior
trials). -/
theorem c6_reward (dim : Nat) (hdim : 1 ≤ dim) (st : TaskState) :
    (∀ a ∈ dirMoves dim,
      eval_action a st =
        some { st with s1_t := st.s1_t + a,
                       r_t := if st.s1_t + a = st.s2_t then 1 else 0 }) ∧
    (∀ st', eval_action 0 st = some st' → st'.r_t = st.r_t) ∧
    (∀ acts : List Int, (∀ a ∈ acts, a ∈ dirMoves dim) → acts ≠ [] →
      ∃ st', runActions acts st = some st' ∧ st'.s2_t = st.s2_t ∧
        st'.r_t = if st'.s1_t = st.s2_t then 1 else 0) := by
  refine ⟨?_, ?_, ?_⟩
  · intro a ha
    exact eval_action_dir st a (dirMoves_ne_zero hdim ha)
  · intro st' h
    rw [eval_action_drill] at h
    unfold eval_state_transition_f at h
    split_ifs at h with h0 h1
    · rcases Option.map_eq_some'.mp h with ⟨nc, -, rfl⟩
      rfl
    · rcases Option.map_eq_some'.mp h with ⟨nc, -, rfl⟩
      rfl
    · cases h
      rfl
  · intro acts hall hne
    exact runActions_dir hdim acts hall st hne

/-- C6 witness: a 3×3 grid, start at node 1 with the treasure at node 3;
the action sequence (+1, +1) reaches the treasure on its second trial. -/
theorem c6_witness :
    ∃ st', runActions [1, 1] ⟨1, 3, [3, 5], [0, 0, 0, 0, 0, 0, 0, 0, 0], 0⟩ =
        some st' ∧
      st'.s2_t = 3 ∧
      st'.r_t = if st'.s1_t = 3 then 1 else 0 :=
  (c6_reward 3 (by decide) ⟨1, 3, [3, 5], [0, 0, 0, 0, 0, 0, 0, 0, 0], 0⟩).2.2
    [1, 1] (by decide) (by decide)

/-! ### Claim C10 -/

/-- C10: the drill transition is not total over legal positions: with
`s1_t = n_nodes` (the last node) the color write indexes out of bounds
(`IndexError`, modelled as `none`), and for every other legal position
`p` the write lands at 0-based index `p` — node `p`'s own slot at index
`p - 1` is left untouched. -/
theorem c10_drill_out_of_bounds (n_nodes : Nat) (st : TaskState) (p : Nat)
    (hlen : st.node_colors.length = n_nodes) (hpos : st.s1_t = (p : Int)) :
    (p = n_nodes → eval_state_transition_f 0 st = none) ∧
    (1 ≤ p → p < n_nodes →
      ∃ st', eval_state_transition_f 0 st = some st' ∧
        st'.node_colors =
          st.node_colors.set p (if (p : Int) ∈ st.s3_t then 2 else 1) ∧
        st'.node_colors.get? (p - 1) = st.node_colors.get? (p - 1)) := by
  constructor
  · intro he
    exact eval_f_drill_oob st p hpos (by omega)
  · intro hp1 hlt
    rw [eval_f_drill st p hpos (by omega)]
    refine ⟨_, rfl, rfl, ?_⟩
    exact List.get?_set_ne _ _ (by omega)

/-- C10 witness: four nodes; drilling at position 4 raises, drilling at
position 1 writes index 1 and leaves index 0 alone. -/
theorem c10_witness :
    eval_state_transition_f 0 ⟨4, 2, [2, 3], [0, 0, 0, 0], 0⟩ = none ∧
    ∃ st', eval_state_transition_f 0 ⟨1, 3, [2, 3], [0, 0, 0, 0], 0⟩ =
        some st' ∧
      st'.node_colors = [0, 1, 0, 0] ∧
      st'.node_colors.get? 0 = some 0 :=
  ⟨(c10_drill_out_of_bounds 4 ⟨4, 2, [2, 3], [0, 0, 0, 0], 0⟩ 4 rfl
      rfl).1 rfl,
   by
    obtain ⟨st', h1, h2, h3⟩ :=
      (c10_drill_out_of_bounds 4 ⟨1, 3, [2, 3], [0, 0, 0, 0], 0⟩ 1 rfl
        rfl).2 (by decide) (by decide)
    exact ⟨st', h1, by simpa using h2, by simpa using h3⟩⟩

/-! ## Space Enumerator (`Task.compute_set_S` / `compute_set_O`,
task.py lines 460-561) -/

/-- All length-`n` tuples over the three color values `{0, 1, 2}` in
lexicographic (ascending tuple) order. -/
def colorTuples : Nat → List (List Nat)
  | 0 => [[]]
  | n + 1 => [0, 1, 2].flatMap (fun c => (colorTuples n).map (fun s => c :: s))

/-- The urn of `Task.compute_O2` (task.py lines 527-529): `n_nodes` times
"unvisited" (0), `n_nodes - n_hides` times "grey" (1), `n_hides` times
"blue" (2). -/
def urn_values (n_nodes n_hides : Nat) : List Nat :=
  List.replicate n_nodes 0 ++ List.replicate (n_nodes - n_hides) 1 ++
    List.replicate n_hides 2

/-- `Task.compute_O2` (task.py lines 519-538):
`sorted(more_itertools.distinct_permutations(urn_values, r=n_nodes))`.
The distinct `r`-length permutations of a multiset are exactly the
`r`-tuples whose per-value counts do not exceed the multiset's
multiplicities; `sorted` puts them in lexicographic order, so the result
is the lexicographic list of length-`n_nodes` color tuples with at most
`count` occurrences of each color value. -/
def compute_O2 (n_nodes n_hides : Nat) : List (List Nat) :=
  (colorTuples n_nodes).filter
    (fun s =>
      s.count 0 ≤ (urn_values n_nodes n_hides).count 0 ∧
      s.count 1 ≤ (urn_values n_nodes n_hides).count 1 ∧
      s.count 2 ≤ (urn_values n_nodes n_hides).count 2)

/-- `Task.compute_set_O` (task.py lines 548-561): rows `(o1, o2)` for the
treasure flag `o1 ∈ O1 = [0, 1]` crossed with the color rows of `O2`. -/
def compute_set_O (n_nodes n_hides : Nat) : List (List Nat) :=
  [0, 1].flatMap (fun o1 =>
    (compute_O2 n_nodes n_hides).map (fun o2 => o1 :: o2))

/-- `more_itertools.distinct_combinations(iterable, r)` on a
duplicate-free ascending list, as used by `Task.compute_set_S`
(task.py lines 492-497): all size-`r` combinations, in the
lexicographically sorted order that `sorted(...)` produces. -/
def distinct_combinations : Nat → List Nat → List (List Nat)
  | 0, _ => [[]]
  | _ + 1, [] => []
  | r + 1, x :: xs =>
      (distinct_combinations r xs).map (fun c => x :: c) ++
        distinct_combinations (r + 1) xs

/-- `Task.compute_set_S` (task.py lines 487-517): one row
`(position, treasure location, hide combination)` per candidate position,
candidate treasure location and hide combination that contains the
treasure location. -/
def compute_set_S (n_nodes n_hides : Nat) : List (List Nat) :=
  (List.range' 1 n_nodes).flatMap (fun possible_position =>
    (List.range' 1 n_nodes).flatMap (fun possible_tr_loc =>
      ((distinct_combinations n_hides (List.range' 1 n_nodes)).filter
          (fun combo => possible_tr_loc ∈ combo)).map
        (fun combo => possible_position :: possible_tr_loc :: combo)))

/-- `Task.compute_S_cardinality_n` (task.py lines 460-485):
`n_nodes * n_hides * (n_nodes! / ((n_nodes - n_hides)! * n_hides!))`.
Python evaluates the quotient with float true-division; for
`n_hides ≤ n_nodes` the quotient is exact, modelled by exact natural
division. -/
def compute_S_cardinality_n (n_nodes n_hides : Nat) : Nat :=
  n_nodes * n_hides *
    (Nat.factorial n_nodes /
      (Nat.factorial (n_nodes - n_hides) * Nat.factorial n_hides))

section SpaceSanity

example : compute_O2 2 1 = [[0, 0], [0, 1], [0, 2], [1, 0], [1, 2], [2, 0],
    [2, 1]] := by decide

example : (compute_set_S 4 2).length = 48 := by decide

example : compute_S_cardinality_n 4 2 = 48 := by decide

end SpaceSanity

/-! ### Helper lemmas for the spaces -/

lemma colorTuples_length {n : Nat} : ∀ s ∈ colorTuples n, s.length = n := by
  induction n with
  | zero => intro s hs; simp [colorTuples] at hs; simp [hs]
  | succ n ih =>
    intro s hs
    simp only [colorTuples, List.mem_flatMap, List.mem_map] at hs
    obtain ⟨c, -, t, ht, rfl⟩ := hs
    simp [ih t ht]

lemma replicate_zero_mem_colorTuples (n : Nat) :
    List.replicate n 0 ∈ colorTuples n := by
  induction n with
  | zero => simp [colorTuples]
  | succ n ih =>
    simp only [colorTuples, List.mem_flatMap, List.mem_map]
    exact ⟨0, by simp, List.replicate n 0, ih, rfl⟩

lemma urn_values_count (n_nodes n_hides : Nat) :
    (urn_values n_nodes n_hides).count 0 = n_nodes ∧
    (urn_values n_nodes n_hides).count 1 = n_nodes - n_hides ∧
    (urn_values n_nodes n_hides).count 2 = n_hides := by
  unfold urn_values
  refine ⟨?_, ?_, ?_⟩ <;> simp [List.count_append, List.count_replicate]

/-! ### Claim C1 -/

/-- C1 counterexample: for `n_nodes = 4`, `n_hides = 1` the observation
table contains the all-"unvisited" color row (the urn from which the
rows are drawn contains `n_nodes` "unvisited" values), so not every row
carries exactly `n_hides` "blue" and `n_nodes - n_hides` "grey" entries
with no "unvisited" ones. -/
theorem c1_counterexample :
    ¬ (∀ row ∈ compute_set_O 4 1,
        (row.drop 1).count 2 = 1 ∧ (row.drop 1).count 1 = 4 - 1 ∧
        (row.drop 1).count 0 = 0) := by
  decide

/-- C1 (amended): every row of O has `1 + n_nodes` entries whose color
columns contain at most `n_hides` "blue" (2) and at most
`n_nodes - n_hides` "grey" (1) values — "at most", not "exactly":
because the urn also holds `n_nodes` "unvisited" (0) values, rows with
"unvisited" entries do occur, e.g. the all-"unvisited" row, which is
always present. -/
theorem c1_amended (n_nodes n_hides : Nat) :
    (∀ row ∈ compute_set_O n_nodes n_hides,
      row.length = 1 + n_nodes ∧
      (row.drop 1).count 2 ≤ n_hides ∧
      (row.drop 1).count 1 ≤ n_nodes - n_hides) ∧
    (0 :: List.replicate n_nodes 0) ∈ compute_set_O n_nodes n_hides := by
  obtain ⟨hc0, hc1, hc2⟩ := urn_values_count n_nodes n_hides
  constructor
  · intro row hrow
    simp only [compute_set_O, List.mem_flatMap, List.mem_map] at hrow
    obtain ⟨o1, -, o2, ho2, rfl⟩ := hrow
    simp only [compute_O2, List.mem_filter, decide_eq_true_eq] at ho2
    obtain ⟨htup, hcnt⟩ := ho2
    rw [hc0, hc1, hc2] at hcnt
    refine ⟨?_, ?_, ?_⟩
    · simp [colorTuples_length o2 htup, Nat.add_comm]
    · simpa using hcnt.2.2
    · simpa using hcnt.2.1
  · simp only [compute_set_O, List.mem_flatMap, List.mem_map]
    refine ⟨0, by simp, List.replicate n_nodes 0, ?_, rfl⟩
    simp only [compute_O2, List.mem_filter, decide_eq_true_eq]
    refine ⟨replicate_zero_mem_colorTuples n_nodes, ?_⟩
    rw [hc0, hc1, hc2]
    simp [List.count_replicate]

/-- C1 witness: the amended theorem instantiated at `n_nodes = 4`,
`n_hides = 1` and the concrete row `(1, (2, 0, 0, 0))`. -/
theorem c1_witness :
    ([1, 2, 0, 0, 0].length = 1 + 4 ∧
      ([1, 2, 0, 0, 0].drop 1).count 2 ≤ 1 ∧
      ([1, 2, 0, 0, 0].drop 1).count 1 ≤ 4 - 1) ∧
    (0 :: List.replicate 4 0) ∈ compute_set_O 4 1 :=
  ⟨(c1_amended 4 1).1 [1, 2, 0, 0, 0] (by decide), (c1_amended 4 1).2⟩

/-! ### Claim C2 -/

lemma distinct_combinations_length :
    ∀ (l : List Nat) (r : Nat),
      (distinct_combinations r l).length = Nat.choose l.length r := by
  intro l
  induction l with
  | nil => intro r; cases r <;> simp [distinct_combinations]
  | cons x xs ih =>
    intro r
    cases r with
    | zero => simp [distinct_combinations]
    | succ r =>
      simp [distinct_combinations, ih, Nat.choose_succ_succ]

lemma mem_distinct_combinations_length :
    ∀ (l : List Nat) (r : Nat) (c : List Nat),
      c ∈ distinct_combinations r l → c.length = r := by
  intro l
  induction l with
  | nil =>
    intro r c hc
    cases r with
    | zero => simp [distinct_combinations] at hc; simp [hc]
    | succ r => simp [distinct_combinations] at hc
  | cons x xs ih =>
    intro r c hc
    cases r with
    | zero => simp [distinct_combinations] at hc; simp [hc]
    | succ r =>
      simp only [distinct_combinations, List.mem_append, List.mem_map] at hc
      rcases hc with ⟨t, ht, rfl⟩ | hc
      · simp [ih r t ht]
      · exact ih (r + 1) c hc

lemma mem_distinct_combinations_sublist :
    ∀ (l : List Nat) (r : Nat) (c : List Nat),
      c ∈ distinct_combinations r l → c.Sublist l := by
  intro l
  induction l with
  | nil =>
    intro r c hc
    cases r with
    | zero => simp [distinct_combinations] at hc; simp [hc]
    | succ r => simp [distinct_combinations] at hc
  | cons x xs ih =>
    intro r c hc
    cases r with
    | zero =>
      simp [distinct_combinations] at hc
      simp [hc]
    | succ r =>
      simp only [distinct_combinations, List.mem_append, List.mem_map] at hc
      rcases hc with ⟨t, ht, rfl⟩ | hc
      · exact List.Sublist.cons₂ x (ih r t ht)
      · exact List.Sublist.cons x (ih (r + 1) c hc)

lemma sum_map_add_nat (l : List Nat) (f g : Nat → Nat) :
    (l.map (fun t => f t + g t)).sum = (l.map f).sum + (l.map g).sum := by
  induction l with
  | nil => simp
  | cons a l ih => simp [ih]; omega

lemma sum_map_ite_mem (l : List Nat) (c : List Nat) :
    (l.map (fun t => if t ∈ c then 1 else 0)).sum =
      (l.filter (fun t => t ∈ c)).length := by
  induction l with
  | nil => simp
  | cons a l ih =>
    by_cases h : a ∈ c <;> simp [List.filter_cons, h, ih] <;> omega

/-- Counting the incidences `t ∈ c` (for `t` over `nodes` and `c` over
`L`) in both orders. -/
lemma sum_count_swap (nodes : List Nat) :
    ∀ L : List (List Nat),
      (nodes.map (fun t => (L.filter (fun c => t ∈ c)).length)).sum =
        (L.map (fun c => (nodes.filter (fun t => t ∈ c)).length)).sum := by
  intro L
  induction L with
  | nil => simp
  | cons c L ih =>
    have hstep : ∀ t : Nat,
        ((c :: L).filter (fun d => t ∈ d)).length =
          (if t ∈ c then 1 else 0) + (L.filter (fun d => t ∈ d)).length := by
      intro t
      by_cases h : t ∈ c <;> simp [List.filter_cons, h] <;> omega
    calc (nodes.map (fun t => ((c :: L).filter (fun d => t ∈ d)).length)).sum
        = (nodes.map (fun t =>
            (if t ∈ c then 1 else 0) +
              (L.filter (fun d => t ∈ d)).length)).sum := by
          rw [List.map_congr_left (fun t _ => hstep t)]
      _ = (nodes.map (fun t => if t ∈ c then 1 else 0)).sum +
            (nodes.map (fun t => (L.filter (fun d => t ∈ d)).length)).sum :=
          sum_map_add_nat nodes _ _
      _ = (nodes.filter (fun t => t ∈ c)).length +
            (L.map (fun c => (nodes.filter (fun t => t ∈ c)).length)).sum := by
          rw [sum_map_ite_mem, ih]
      _ = _ := by simp

lemma filter_mem_length_of_nodup (nodes c : List Nat) (hn : nodes.Nodup)
    (hc : c.Nodup) (hsub : ∀ x ∈ c, x ∈ nodes) :
    (nodes.filter (fun t => t ∈ c)).length = c.length := by
  have hperm : (nodes.filter (fun t => t ∈ c)).Perm c := by
    rw [List.perm_ext_iff_of_nodup (hn.filter _) hc]
    intro a
    simp only [List.mem_filter, decide_eq_true_eq]
    exact ⟨fun h => h.2, fun h => ⟨hsub a h, h⟩⟩
  exact hperm.length_eq

lemma sum_map_const_nat {α : Type} (l : List α) (k : Nat) :
    (l.map (fun _ => k)).sum = l.length * k := by
  induction l with
  | nil => simp
  | cons a l ih => simp [ih, Nat.succ_mul]; omega

/-- The number of rows `compute_set_S` enumerates:
`n_nodes * n_hides * C(n_nodes, n_hides)`. -/
lemma compute_set_S_length (n_nodes n_hides : Nat) :
    (compute_set_S n_nodes n_hides).length =
      n_nodes * (n_hides * Nat.choose n_nodes n_hides) := by
  set nodes := List.range' 1 n_nodes with hnodes
  set combos := distinct_combinations n_hides nodes with hcombos
  have hnodes_len : nodes.length = n_nodes := by simp [hnodes]
  have hnodes_nodup : nodes.Nodup := List.nodup_range' _ _
  have hinner : ∀ t : Nat,
      ((combos.filter (fun combo => t ∈ combo)).map
        (fun combo => t :: combo)).length =
        (combos.filter (fun combo => t ∈ combo)).length := by
    intro t; simp
  have hswap :
      (nodes.map (fun t => (combos.filter (fun c => t ∈ c)).length)).sum =
        n_hides * Nat.choose n_nodes n_hides := by
    rw [sum_count_swap nodes combos]
    have hconst : ∀ c ∈ combos,
        (nodes.filter (fun t => t ∈ c)).length = n_hides := by
      intro c hc
      have hsub := mem_distinct_combinations_sublist nodes n_hides c hc
      rw [filter_mem_length_of_nodup nodes c hnodes_nodup
        (hsub.nodup hnodes_nodup) (fun x hx => hsub.subset hx)]
      exact mem_distinct_combinations_length nodes n_hides c hc
    rw [List.map_congr_left hconst, sum_map_const_nat]
    rw [show combos.length = Nat.choose n_nodes n_hides by
      rw [hcombos, distinct_combinations_length, hnodes_len]]
    exact Nat.mul_comm _ _
  unfold compute_set_S
  rw [List.length_flatMap]
  rw [show (List.map
        (List.length ∘ fun possible_position =>
          (List.range' 1 n_nodes).flatMap fun possible_tr_loc =>
            (((distinct_combinations n_hides
                (List.range' 1 n_nodes)).filter
              (fun combo => decide (possible_tr_loc ∈ combo))).map
              (fun combo => possible_position :: possible_tr_loc :: combo)))
        (List.range' 1 n_nodes)) =
      (List.map (fun _ => n_hides * Nat.choose n_nodes n_hides)
        (List.range' 1 n_nodes)) from ?_]
  · rw [sum_map_const_nat, hnodes_len]
  · apply List.map_congr_left
    intro pos _
    simp only [Function.comp_apply, List.length_flatMap, List.map_map]
    rw [show (List.map
          (List.length ∘ fun possible_tr_loc =>
            (((distinct_combinations n_hides
                (List.range' 1 n_nodes)).filter
              (fun combo => decide (possible_tr_loc ∈ combo))).map
              (fun combo => pos :: possible_tr_loc :: combo)))
          (List.range' 1 n_nodes)) =
        (List.map (fun t =>
            (combos.filter (fun c => t ∈ c)).length) nodes) from ?_]
    · exact hswap
    · apply List.map_congr_left
      intro t _
      simp [hcombos, hnodes]

lemma compute_S_cardinality_eq (n_nodes n_hides : Nat)
    (h : n_hides ≤ n_nodes) :
    compute_S_cardinality_n n_nodes n_hides =
      n_nodes * (n_hides * Nat.choose n_nodes n_hides) := by
  unfold compute_S_cardinality_n
  rw [Nat.mul_comm (Nat.factorial (n_nodes - n_hides)) (Nat.factorial n_hides),
    ← Nat.choose_eq_factorial_div_factorial h, Nat.mul_assoc]

/-- C2 counterexample (negation of the claim): there is no configuration
`1 ≤ n_hides ≤ n_nodes` on which the cardinality formula
`n_nodes * n_hides * C(n_nodes, n_hides)` disagrees with the number of
rows the enumeration produces — the two always coincide. -/
theorem c2_counterexample :
    ¬ ∃ n_nodes n_hides : Nat, 1 ≤ n_hides ∧ n_hides ≤ n_nodes ∧
        (compute_set_S n_nodes n_hides).length ≠
          compute_S_cardinality_n n_nodes n_hides := by
  rintro ⟨n, k, -, h2, hne⟩
  exact hne ((compute_set_S_length n k).trans
    (compute_S_cardinality_eq n k h2).symm)

/-- C2 (amended): the standalone cardinality formula returned by
`compute_S_cardinality_n` is consistent with the enumeration of
`compute_set_S`: for every `1 ≤ n_hides ≤ n_nodes`, the enumeration
produces exactly `n_nodes * n_hides * C(n_nodes, n_hides)` rows (each
hide combination of size `n_hides` contains exactly `n_hides` candidate
treasure locations), which is the formula's value. -/
theorem c2_amended (n_nodes n_hides : Nat) (h1 : 1 ≤ n_hides)
    (h2 : n_hides ≤ n_nodes) :
    (compute_set_S n_nodes n_hides).length =
      compute_S_cardinality_n n_nodes n_hides :=
  (compute_set_S_length n_nodes n_hides).trans
    (compute_S_cardinality_eq n_nodes n_hides h2).symm

/-- C2 witness: the amended theorem at `n_nodes = 4`, `n_hides = 2`
(48 rows on both sides). -/
theorem c2_witness :
    (1 ≤ 2 ∧ 2 ≤ 4) ∧
    (compute_set_S 4 2).length = compute_S_cardinality_n 4 2 :=
  ⟨by decide, c2_amended 4 2 (by decide) (by decide)⟩

/-! ## Run Configuration Store
(`TaskNGridParameters` / `TaskStatesConfigurator`, task.py lines 16-198)

The numpy random primitives are modelled with explicit oracle streams
(arbitrary functions `Nat → Nat` supplying the raw draws), so the
theorems quantify over every possible randomness. -/

/-- `TaskNGridParameters` (task.py lines 16-38): plain parameter record;
`__post_init__` derives `n_nodes = dim ** 2`. -/
structure TaskNGridParameters where
  n_blocks : Nat
  n_rounds : Nat
  n_trials : Nat
  dim : Nat
  n_hides : Nat
  n_nodes : Nat
deriving DecidableEq, Repr

/-- Construction of `TaskNGridParameters`: the dataclass performs no
validation whatsoever, so construction always succeeds. The result type
allows a rejection (`Except.error`) so that the error-handling claim is
statable. -/
def mkTaskNGridParameters (n_blocks n_rounds n_trials dim n_hides : Nat) :
    Except String TaskNGridParameters :=
  Except.ok ⟨n_blocks, n_rounds, n_trials, dim, n_hides, dim ^ 2⟩

/-- `TaskStatesConfigurator` instance data: the constructor
(task.py lines 67-72) merely stores the paths and parameters and
initialises the empty state dict; it performs no feasibility check. -/
structure TaskStatesConfigurator where
  params : TaskNGridParameters
deriving DecidableEq, Repr

/-- `TaskStatesConfigurator.__init__` (task.py lines 67-72): always
succeeds, no validation. -/
def mkTaskStatesConfigurator (params : TaskNGridParameters) :
    Except String TaskStatesConfigurator :=
  Except.ok ⟨params⟩

/-- `np.random.choice(pool, 1)`: one uniform draw from `pool`, the raw
draw `g` reduced mod the pool size; numpy raises `ValueError` on an
empty pool (`none`). -/
def npChoiceOne (g : Nat) (pool : List Nat) : Option Nat :=
  pool.get? (g % pool.length)

/-- `np.random.choice(pool, k, replace=False)`: `k` uniform draws
without replacement — each drawn item is removed from the pool before
the next draw; numpy raises `ValueError` when the pool is exhausted
(`none`). `step` indexes the oracle stream. -/
def npChoiceNoReplace (g : Nat → Nat) : Nat → Nat → List Nat → Option (List Nat)
  | _, 0, _ => some []
  | step, k + 1, pool =>
    match pool.get? (g step % pool.length) with
    | none => none
    | some x =>
        (npChoiceNoReplace g (step + 1) k (pool.erase x)).map
          (fun l => x :: l)

/-- A Python for-loop filling an array from a fallible body: `none` as
soon as any entry raises. -/
def optMap {α β : Type} (f : α → Option β) : List α → Option (List β)
  | [] => some []
  | a :: l =>
    match f a, optMap f l with
    | some b, some bs => some (b :: bs)
    | _, _ => none

/-- `TaskStatesConfigurator.sample_s1` (task.py lines 84-94): one uniform
node from `{1, ..., n_nodes}` per (block, round). -/
def sample_s1 (P : TaskNGridParameters) (o1 : Nat → Nat → Nat) :
    Option (List (List Nat)) :=
  optMap (fun block =>
      optMap (fun round_ =>
          npChoiceOne (o1 block round_) (List.range' 1 P.n_nodes))
        (List.range P.n_rounds))
    (List.range P.n_blocks)

/-- `TaskStatesConfigurator.sample_s3` (task.py lines 96-106): per block,
`n_hides` nodes drawn from `{1, ..., n_nodes}` without replacement. -/
def sample_s3 (P : TaskNGridParameters) (o3 : Nat → Nat → Nat) :
    Option (List (List Nat)) :=
  optMap (fun block =>
      npChoiceNoReplace (o3 block) 0 P.n_hides (List.range' 1 P.n_nodes))
    (List.range P.n_blocks)

/-- The treasure-resampling loop of `sample_s2` for one (block, round)
cell (task.py lines 117-125): `s2` starts equal to the starting
position and is redrawn from the block's hiding spots until it differs;
`fuel` bounds the number of iterations (`none` = the loop has not
terminated within `fuel` redraws). -/
def sample_s2_entry (g : Nat → Nat) (s1_val : Nat) (s3_row : List Nat) :
    Nat → Nat → Option Nat
  | _, 0 => none
  | step, fuel + 1 =>
    match npChoiceOne (g step) s3_row with
    | none => none
    | some v =>
        if v = s1_val then sample_s2_entry g s1_val s3_row (step + 1) fuel
        else some v

/-- `TaskStatesConfigurator.sample_s2` (task.py lines 108-126). -/
def sample_s2 (P : TaskNGridParameters) (o2 : Nat → Nat → Nat → Nat)
    (fuel : Nat) (s1 s3 : List (List Nat)) : Option (List (List Nat)) :=
  optMap (fun block =>
      optMap (fun round_ =>
          sample_s2_entry (o2 block round_)
            ((s1.getD block []).getD round_ 0) (s3.getD block []) 0 fuel)
        (List.range P.n_rounds))
    (List.range P.n_blocks)

/-- `TaskStatesConfigurator.sample_task_states` (task.py lines 162-168):
sample `s1`, then `s3`, then `s2` (the disk write is out of scope). -/
def sample_task_states (P : TaskNGridParameters) (o1 o3 : Nat → Nat → Nat)
    (o2 : Nat → Nat → Nat → Nat) (fuel : Nat) :
    Option (List (List Nat) × List (List Nat) × List (List Nat)) :=
  (sample_s1 P o1).bind (fun s1 =>
    (sample_s3 P o3).bind (fun s3 =>
      (sample_s2 P o2 fuel s1 s3).map (fun s2 => (s1, s2, s3))))

section SamplingSanity

example :
    sample_task_states ⟨1, 2, 12, 2, 2, 4⟩ (fun _ _ => 0) (fun _ i => i)
        (fun _ _ _ => 1) 5 =
      some ([[1, 1]], [[3, 3]], [[1, 3]]) := by decide

end SamplingSanity

/-! ### Helper lemmas for the sampler -/

lemma optMap_inv {α β : Type} {f : α → Option β} :
    ∀ {l : List α} {res : List β}, optMap f l = some res →
      res.length = l.length ∧
        ∀ i x, l.get? i = some x → f x = res.get? i := by
  intro l
  induction l with
  | nil =>
    intro res h
    simp only [optMap] at h
    cases h
    exact ⟨rfl, fun i x hx => by simp at hx⟩
  | cons a l ih =>
    intro res h
    simp only [optMap] at h
    cases hfa : f a <;> rw [hfa] at h
    · exact absurd h (by simp)
    · cases hol : optMap f l <;> rw [hol] at h
      · exact absurd h (by simp)
      · cases h
        obtain ⟨hlen, hget⟩ := ih hol
        refine ⟨by simp [hlen], ?_⟩
        intro i x hx
        cases i with
        | zero => cases hx; simpa using hfa
        | succ i => simpa using hget i x (by simpa using hx)

lemma optMap_none_of_mem {α β : Type} {f : α → Option β} :
    ∀ {l : List α} {a : α}, a ∈ l → f a = none → optMap f l = none := by
  intro l
  induction l with
  | nil => intro a ha; simp at ha
  | cons b l ih =>
    intro a ha hfa
    simp only [optMap]
    rcases List.mem_cons.mp ha with rfl | ha'
    · rw [hfa]
    · cases hfb : f b
      · rfl
      · rw [ih ha' hfa]

lemma npChoiceOne_mem {g : Nat} {pool : List Nat} {v : Nat}
    (h : npChoiceOne g pool = some v) : v ∈ pool :=
  List.get?_mem h

lemma npChoiceNoReplace_sound {g : Nat → Nat} :
    ∀ (k step : Nat) (pool res : List Nat), pool.Nodup →
      npChoiceNoReplace g step k pool = some res →
      res.Nodup ∧ ∀ x ∈ res, x ∈ pool := by
  intro k
  induction k with
  | zero =>
    intro step pool res _ h
    simp only [npChoiceNoReplace] at h
    cases h
    simp
  | succ k ih =>
    intro step pool res hnd h
    simp only [npChoiceNoReplace] at h
    cases hget : pool.get? (g step % pool.length) <;>
      simp only [hget] at h
    · exact absurd h (by simp)
    · rename_i x
      cases hrec : npChoiceNoReplace g (step + 1) k (pool.erase x) <;>
        simp only [hrec, Option.map_none', Option.map_some'] at h
      · exact absurd h (by simp)
      · rename_i l
        cases h
        have hxmem : x ∈ pool := List.get?_mem hget
        obtain ⟨hl_nd, hl_sub⟩ := ih (step + 1) (pool.erase x) l
          (hnd.erase x) hrec
        have hxnotl : x ∉ l := fun hx =>
          (hnd.not_mem_erase) (hl_sub x hx)
        refine ⟨List.nodup_cons.mpr ⟨hxnotl, hl_nd⟩, ?_⟩
        intro y hy
        rcases List.mem_cons.mp hy with rfl | hy'
        · exact hxmem
        · exact List.mem_of_mem_erase (hl_sub y hy')

lemma npChoiceNoReplace_oversample {g : Nat → Nat} :
    ∀ (k step : Nat) (pool : List Nat), pool.length < k →
      npChoiceNoReplace g step k pool = none := by
  intro k
  induction k with
  | zero => intro step pool h; omega
  | succ k ih =>
    intro step pool h
    cases hget : pool.get? (g step % pool.length)
    · simp only [npChoiceNoReplace, hget]
    · rename_i x
      have hxmem : x ∈ pool := List.get?_mem hget
      have hpos : 1 ≤ pool.length := List.length_pos.mpr (List.ne_nil_of_mem hxmem)
      simp only [npChoiceNoReplace, hget]
      rw [ih (step + 1) (pool.erase x)
        (by rw [List.length_erase_of_mem hxmem]; omega)]
      rfl

lemma sample_s2_entry_sound {g : Nat → Nat} {s1_val : Nat}
    {s3_row : List Nat} :
    ∀ (fuel step : Nat) {v : Nat},
      sample_s2_entry g s1_val s3_row step fuel = some v →
      v ∈ s3_row ∧ v ≠ s1_val := by
  intro fuel
  induction fuel with
  | zero => intro step v h; simp [sample_s2_entry] at h
  | succ fuel ih =>
    intro step v h
    simp only [sample_s2_entry] at h
    cases hc : npChoiceOne (g step) s3_row <;> simp only [hc] at h
    · exact absurd h (by simp)
    · rename_i w
      by_cases hw : w = s1_val
      · rw [if_pos hw] at h
        exact ih (step + 1) h
      · rw [if_neg hw] at h
        cases h
        exact ⟨npChoiceOne_mem hc, hw⟩

lemma get?_getD {α : Type} {l : List α} {i : Nat} (h : i < l.length) (d : α) :
    l.get? i = some (l.getD i d) := by
  rw [List.getD_eq_get?]
  cases hq : l.get? i
  · rw [List.get?_eq_none] at hq; omega
  · rfl

/-! ### Claim C8 -/

/-- `TaskConfigurator.sample_hiding_spots` (config.py lines 252-262):
this variant draws from `np.random.choice(n_nodes, ...)`, i.e. the
0-based pool `{0, ..., n_nodes - 1}`, again without replacement.
(`TaskDesignParameters`, config.py lines 159-182, carries the same
fields as `TaskNGridParameters`, which is reused here.) -/
def sample_hiding_spots (P : TaskNGridParameters) (o3 : Nat → Nat → Nat) :
    Option (List (List Nat)) :=
  optMap (fun block =>
      npChoiceNoReplace (o3 block) 0 P.n_hides (List.range P.n_nodes))
    (List.range P.n_blocks)

/-- `TaskConfigurator.sample_start_pos` (config.py lines 264-273). -/
def sample_start_pos (P : TaskNGridParameters) (o1 : Nat → Nat → Nat) :
    Option (List (List Nat)) :=
  optMap (fun block =>
      optMap (fun round_ =>
          npChoiceOne (o1 block round_) (List.range P.n_nodes))
        (List.range P.n_rounds))
    (List.range P.n_blocks)

/-- `TaskConfigurator.sample_treasure_loc` (config.py lines 275-289):
the same start-equal-resample loop as `sample_s2`, over the `hides`
rows (the treasure array is called `s_3` in this variant). -/
def sample_treasure_loc (P : TaskNGridParameters)
    (o2 : Nat → Nat → Nat → Nat) (fuel : Nat)
    (s_1 hides : List (List Nat)) : Option (List (List Nat)) :=
  optMap (fun block =>
      optMap (fun round_ =>
          sample_s2_entry (o2 block round_)
            ((s_1.getD block []).getD round_ 0) (hides.getD block []) 0
            fuel)
        (List.range P.n_rounds))
    (List.range P.n_blocks)

/-- `TaskConfigurator.sample_task_config` (config.py lines 323-329):
sample `hides`, then `s_1`, then `s_3` (the disk write is out of
scope). -/
def sample_task_config (P : TaskNGridParameters) (o3 o1 : Nat → Nat → Nat)
    (o2 : Nat → Nat → Nat → Nat) (fuel : Nat) :
    Option (List (List Nat) × List (List Nat) × List (List Nat)) :=
  (sample_hiding_spots P o3).bind (fun hides =>
    (sample_start_pos P o1).bind (fun s_1 =>
      (sample_treasure_loc P o2 fuel s_1 hides).map
        (fun s_3 => (hides, s_1, s_3))))

lemma sample_task_states_invariants (P : TaskNGridParameters)
    (o1 o3 : Nat → Nat → Nat) (o2 : Nat → Nat → Nat → Nat) (fuel : Nat)
    (s1 s2 s3 : List (List Nat))
    (h : sample_task_states P o1 o3 o2 fuel = some (s1, s2, s3)) :
    ∀ b, b < P.n_blocks →
      (s3.getD b []).Nodup ∧
      ∀ r, r < P.n_rounds →
        (s2.getD b []).getD r 0 ∈ s3.getD b [] ∧
        (s2.getD b []).getD r 0 ≠ (s1.getD b []).getD r 0 := by
  unfold sample_task_states at h
  cases hs1 : sample_s1 P o1 <;>
    simp only [hs1, Option.none_bind, Option.some_bind] at h
  · exact absurd h (by simp)
  rename_i s1v
  cases hs3 : sample_s3 P o3 <;>
    simp only [hs3, Option.none_bind, Option.some_bind] at h
  · exact absurd h (by simp)
  rename_i s3v
  cases hs2 : sample_s2 P o2 fuel s1v s3v <;>
    simp only [hs2, Option.map_none', Option.map_some'] at h
  · exact absurd h (by simp)
  rename_i s2v
  simp only [Option.some.injEq, Prod.mk.injEq] at h
  obtain ⟨rfl, rfl, rfl⟩ := h
  intro b hb
  unfold sample_s3 at hs3
  obtain ⟨hlen3, hget3⟩ := optMap_inv hs3
  have hblen3 : b < s3v.length := by
    rw [hlen3, List.length_range]; exact hb
  have hdraw := hget3 b b (List.get?_range hb)
  rw [get?_getD hblen3 []] at hdraw
  have hrow3 := npChoiceNoReplace_sound P.n_hides 0 _ _
    (List.nodup_range' _ _) hdraw
  refine ⟨hrow3.1, ?_⟩
  intro r hr
  unfold sample_s2 at hs2
  obtain ⟨hlen2, hget2⟩ := optMap_inv hs2
  have hblen2 : b < s2v.length := by
    rw [hlen2, List.length_range]; exact hb
  have hrowdraw := hget2 b b (List.get?_range hb)
  rw [get?_getD hblen2 []] at hrowdraw
  obtain ⟨hlen2r, hget2r⟩ := optMap_inv hrowdraw
  have hrlen : r < ((s2v.getD b []) : List Nat).length := by
    rw [hlen2r, List.length_range]; exact hr
  have hentry := hget2r r r (List.get?_range hr)
  rw [get?_getD hrlen 0] at hentry
  exact sample_s2_entry_sound fuel 0 hentry

lemma sample_task_config_invariants (P : TaskNGridParameters)
    (o1 o3 : Nat → Nat → Nat) (o2 : Nat → Nat → Nat → Nat) (fuel : Nat)
    (hides s_1 s_3 : List (List Nat))
    (h : sample_task_config P o3 o1 o2 fuel = some (hides, s_1, s_3)) :
    ∀ b, b < P.n_blocks →
      (hides.getD b []).Nodup ∧
      ∀ r, r < P.n_rounds →
        (s_3.getD b []).getD r 0 ∈ hides.getD b [] ∧
        (s_3.getD b []).getD r 0 ≠ (s_1.getD b []).getD r 0 := by
  unfold sample_task_config at h
  cases hh : sample_hiding_spots P o3 <;>
    simp only [hh, Option.none_bind, Option.some_bind] at h
  · exact absurd h (by simp)
  rename_i hidesv
  cases hs1 : sample_start_pos P o1 <;>
    simp only [hs1, Option.none_bind, Option.some_bind] at h
  · exact absurd h (by simp)
  rename_i s1v
  cases hs3 : sample_treasure_loc P o2 fuel s1v hidesv <;>
    simp only [hs3, Option.map_none', Option.map_some'] at h
  · exact absurd h (by simp)
  rename_i s3v
  simp only [Option.some.injEq, Prod.mk.injEq] at h
  obtain ⟨rfl, rfl, rfl⟩ := h
  intro b hb
  unfold sample_hiding_spots at hh
  obtain ⟨hlenh, hgeth⟩ := optMap_inv hh
  have hblenh : b < hidesv.length := by
    rw [hlenh, List.length_range]; exact hb
  have hdraw := hgeth b b (List.get?_range hb)
  rw [get?_getD hblenh []] at hdraw
  have hrowh := npChoiceNoReplace_sound P.n_hides 0 _ _
    (List.nodup_range _) hdraw
  refine ⟨hrowh.1, ?_⟩
  intro r hr
  unfold sample_treasure_loc at hs3
  obtain ⟨hlen3, hget3⟩ := optMap_inv hs3
  have hblen3 : b < s3v.length := by
    rw [hlen3, List.length_range]; exact hb
  have hrowdraw := hget3 b b (List.get?_range hb)
  rw [get?_getD hblen3 []] at hrowdraw
  obtain ⟨hlen3r, hget3r⟩ := optMap_inv hrowdraw
  have hrlen : r < ((s3v.getD b []) : List Nat).length := by
    rw [hlen3r, List.length_range]; exact hr
  have hentry := hget3r r r (List.get?_range hr)
  rw [get?_getD hrlen 0] at hentry
  exact sample_s2_entry_sound fuel 0 hentry

/-- C8: for both sampling pipelines
(`TaskStatesConfigurator.sample_task_states` of task.py and
`TaskConfigurator.sample_task_config` of config.py), whenever the
sampling terminates (every treasure-resampling loop finishes within its
fuel), the produced run configuration satisfies: each block's
hiding-spot row is duplicate-free (drawn without replacement), and each
treasure location lies in its block's hiding-spot row and differs from
the round's starting position. -/
theorem c8_invariants (P : TaskNGridParameters) (o1 o3 : Nat → Nat → Nat)
    (o2 : Nat → Nat → Nat → Nat) (fuel : Nat) :
    (∀ s1 s2 s3 : List (List Nat),
      sample_task_states P o1 o3 o2 fuel = some (s1, s2, s3) →
      ∀ b, b < P.n_blocks →
        (s3.getD b []).Nodup ∧
        ∀ r, r < P.n_rounds →
          (s2.getD b []).getD r 0 ∈ s3.getD b [] ∧
          (s2.getD b []).getD r 0 ≠ (s1.getD b []).getD r 0) ∧
    (∀ hides s_1 s_3 : List (List Nat),
      sample_task_config P o3 o1 o2 fuel = some (hides, s_1, s_3) →
      ∀ b, b < P.n_blocks →
        (hides.getD b []).Nodup ∧
        ∀ r, r < P.n_rounds →
          (s_3.getD b []).getD r 0 ∈ hides.getD b [] ∧
          (s_3.getD b []).getD r 0 ≠ (s_1.getD b []).getD r 0) :=
  ⟨fun s1 s2 s3 h =>
      sample_task_states_invariants P o1 o3 o2 fuel s1 s2 s3 h,
   fun hides s_1 s_3 h =>
      sample_task_config_invariants P o1 o3 o2 fuel hides s_1 s_3 h⟩

/-- C8 witness: the invariants hold of the concrete configuration
sampled by concrete oracle streams on a 2×2 grid, 1 block, 2 rounds, 2
hiding spots. -/
theorem c8_witness :
    ([[1, 3]].getD 0 []).Nodup ∧
    ∀ r, r < 2 →
      ([[3, 3]].getD 0 []).getD r 0 ∈ [[1, 3]].getD 0 [] ∧
      ([[3, 3]].getD 0 []).getD r 0 ≠ ([[1, 1]].getD 0 []).getD r 0 :=
  (c8_invariants ⟨1, 2, 12, 2, 2, 4⟩ (fun _ _ => 0) (fun _ i => i)
    (fun _ _ _ => 1) 5).1 [[1, 1]] [[3, 3]] [[1, 3]] (by decide) 0
    (by decide)

/-! ### Claim C9 -/

/-- C9 counterexample: an infeasible parameter set with
`n_hides = 5 ≥ n_nodes = 4` is not rejected: both the parameter record
and the states configurator construct successfully, with no error. -/
theorem c9_counterexample :
    (5 ≥ 2 ^ 2) ∧
    mkTaskNGridParameters 1 10 12 2 5 = Except.ok ⟨1, 10, 12, 2, 5, 4⟩ ∧
    mkTaskStatesConfigurator ⟨1, 10, 12, 2, 5, 4⟩ =
      Except.ok ⟨⟨1, 10, 12, 2, 5, 4⟩⟩ ∧
    ¬ ∃ msg, mkTaskNGridParameters 1 10 12 2 5 = Except.error msg := by
  refine ⟨by decide, rfl, rfl, ?_⟩
  rintro ⟨msg, hmsg⟩
  simp [mkTaskNGridParameters] at hmsg

/-- C9 (amended): configuration construction performs no feasibility
validation at all — for every parameter set (including
`n_hides ≥ n_nodes`) both `TaskNGridParameters` (with
`n_nodes = dim ** 2`) and `TaskStatesConfigurator` construct
successfully; the infeasibility only surfaces later, when
`sample_s3` raises (numpy cannot draw `n_hides > n_nodes` nodes without
replacement), for any randomness. -/
theorem c9_amended (n_blocks n_rounds n_trials dim n_hides : Nat) :
    mkTaskNGridParameters n_blocks n_rounds n_trials dim n_hides =
      Except.ok ⟨n_blocks, n_rounds, n_trials, dim, n_hides, dim ^ 2⟩ ∧
    mkTaskStatesConfigurator
        ⟨n_blocks, n_rounds, n_trials, dim, n_hides, dim ^ 2⟩ =
      Except.ok ⟨⟨n_blocks, n_rounds, n_trials, dim, n_hides, dim ^ 2⟩⟩ ∧
    (dim ^ 2 < n_hides → 1 ≤ n_blocks → ∀ o3 : Nat → Nat → Nat,
      sample_s3 ⟨n_blocks, n_rounds, n_trials, dim, n_hides, dim ^ 2⟩ o3 =
        none) := by
  refine ⟨rfl, rfl, ?_⟩
  intro hlt hblocks o3
  unfold sample_s3
  apply optMap_none_of_mem (a := 0)
  · exact List.mem_range.mpr (show 0 < n_blocks by omega)
  · exact npChoiceNoReplace_oversample _ _ _ (by simpa using hlt)

/-- C9 witness: the amended theorem at `dim = 2`, `n_hides = 5`,
one block, with a concrete oracle stream. -/
theorem c9_witness :
    mkTaskNGridParameters 1 10 12 2 5 = Except.ok ⟨1, 10, 12, 2, 5, 4⟩ ∧
    sample_s3 ⟨1, 10, 12, 2, 5, 4⟩ (fun _ _ => 0) = none :=
  ⟨(c9_amended 1 10 12 2 5).1,
   (c9_amended 1 10 12 2 5).2.2 (by decide) (by decide) (fun _ _ => 0)⟩

/-! ## Distance Oracle (`Task.eval_shortest_distances`,
task.py lines 280-373)

`moves = self.A[:4] = [0, -dim, 1, dim]` (note: the left move `-1` is
`A[4]` and is NOT among the BFS moves). The adjacency list maps each
0-based node `i` to the in-range targets `i + move` passing the guard of
lines 311-315, kept sorted (the source sorts after each append; the
unused adjacency matrix of lines 291-303 is dead code and omitted). The
Python dict keyed by `f'{a}_to_{b}'` is modelled as a function from the
pair `(a, b)`. -/

def bfsMoves (dim : Nat) : List Int := [0, -(dim : Int), 1, (dim : Int)]

/-- One row of the adjacency list (task.py lines 305-318). -/
def adjRow (dim i : Nat) : List Nat :=
  ((bfsMoves dim).filterMap (fun move =>
    if 0 ≤ (i : Int) + move ∧ (i : Int) + move < ((dim * dim : Nat) : Int) ∧
        (((i % dim ≠ 0) ∧ move = -1) ∨
         ((((i + 1) % dim) ≠ 0) ∧ move = 1) ∨
         (move = (dim : Int) ∨ move = -(dim : Int))) then
      some ((i : Int) + move).toNat
    else none)).insertionSort (· ≤ ·)

/-- The BFS while-loop of task.py lines 339-373. Paths are stored most
recent node first (`path[-1]` is the head, `append` is cons); the queue
is FIFO. The first time the end node appears among the popped path's
neighbours, `len(new_path) - 1 = len(path)` is returned; an exhausted
queue means the end node is unreachable and nothing is recorded. The
`fuel` counter only bounds the iterations so the recursion is total; it
is chosen large enough that it never expires (each expansion enqueues at
most 4 paths and each of the at most `n_nodes` expansions is charged 4
fuel). -/
def bfsLoop (adj : Nat → List Nat) (end_node : Nat) :
    Nat → List (List Nat) → List Nat → Option Nat
  | 0, _, _ => none
  | _ + 1, [], _ => none
  | fuel + 1, path :: queue, explored =>
    match path with
    | [] => none
    | node :: _ =>
      if node ∈ explored then bfsLoop adj end_node fuel queue explored
      else if end_node ∈ adj node then some path.length
      else
        bfsLoop adj end_node fuel
          (queue ++ (adj node).map (fun nb => nb :: path))
          (explored ++ [node])

/-- One BFS run from `start_node` to `end_node` (0-based),
task.py lines 333-373. -/
def bfs (dim start_node end_node : Nat) : Option Nat :=
  bfsLoop (adjRow dim) end_node (4 * (dim * dim) + 1) [[start_node]] []

/-- One Python dict write `dic[key] = v`. -/
def updDic (d : Nat × Nat → Option Nat) (k : Nat × Nat) (v : Nat) :
    Nat × Nat → Option Nat :=
  fun k' => if k' = k then some v else d k'

/-- The body of the double loop over `(start_node, end_node)`
(task.py lines 320-373): a zero for the diagonal (written to both key
orders, which coincide there), otherwise a BFS whose result — when the
end node is found — is written under both `'{s+1}_to_{e+1}'` and
`'{e+1}_to_{s+1}'`; an unreachable end node writes nothing. -/
def processPair (dim : Nat) (d : Nat × Nat → Option Nat) (s e : Nat) :
    Nat × Nat → Option Nat :=
  if s = e then
    updDic (updDic d (s + 1, e + 1) 0) (e + 1, s + 1) 0
  else
    match bfs dim s e with
    | some dist => updDic (updDic d (s + 1, e + 1) dist) (e + 1, s + 1) dist
    | none => d

/-- `Task.eval_shortest_distances` (task.py lines 280-373): fold the
pair processor over all ordered 0-based node pairs, starting from the
empty dict. -/
def eval_shortest_distances (dim : Nat) : Nat × Nat → Option Nat :=
  ((List.range (dim * dim)).flatMap (fun s =>
      (List.range (dim * dim)).map (fun e => (s, e)))).foldl
    (fun d se => processPair dim d se.1 se.2) (fun _ => none)

section DistanceSanity

example : adjRow 3 0 = [1, 3] := by decide

example : adjRow 3 4 = [1, 5, 7] := by decide

example : bfs 3 0 8 = some 4 := by decide

example : bfs 2 1 0 = none := by decide

end DistanceSanity

/-! ### Claim C7 -/

set_option maxRecDepth 40000 in
/-- C7: for `dim = 3` the distance table yields distance(1, 9) = 4
(opposite corners of the 3×3 grid) and distance(1, 1) = 0. -/
theorem c7_concrete :
    eval_shortest_distances 3 (1, 9) = some 4 ∧
    eval_shortest_distances 3 (1, 1) = some 0 := by
  constructor <;> decide

/-! ### Adjacency facts used by the BFS completeness argument -/

lemma adjRow_lt (dim i : Nat) : ∀ j ∈ adjRow dim i, j < dim * dim := by
  intro j hj
  rw [adjRow, List.mem_insertionSort, List.mem_filterMap] at hj
  obtain ⟨move, -, hmove⟩ := hj
  by_cases hc : 0 ≤ (i : Int) + move ∧
      (i : Int) + move < ((dim * dim : Nat) : Int) ∧
      (((i % dim ≠ 0) ∧ move = -1) ∨
       ((((i + 1) % dim) ≠ 0) ∧ move = 1) ∨
       (move = (dim : Int) ∨ move = -(dim : Int)))
  · rw [if_pos hc] at hmove
    cases hmove
    obtain ⟨h0, h1, -⟩ := hc
    omega
  · rw [if_neg hc] at hmove
    exact absurd hmove (by simp)

lemma adjRow_len (dim i : Nat) : (adjRow dim i).length ≤ 4 := by
  rw [adjRow, List.length_insertionSort, bfsMoves]
  calc (List.filterMap _ [0, -(dim : Int), 1, (dim : Int)]).length
      ≤ [0, -(dim : Int), 1, (dim : Int)].length :=
        List.length_filterMap_le _ _
    _ = 4 := rfl

lemma mem_adjRow_up (dim i : Nat) (hge : dim ≤ i) (hlt : i < dim * dim) :
    i - dim ∈ adjRow dim i := by
  rw [adjRow, List.mem_insertionSort, List.mem_filterMap]
  refine ⟨-(dim : Int), by simp [bfsMoves], ?_⟩
  rw [if_pos ⟨by omega, by omega, Or.inr (Or.inr (Or.inr rfl))⟩]
  exact congrArg some (by omega)

lemma mem_adjRow_down (dim i : Nat) (hlt : i + dim < dim * dim) :
    i + dim ∈ adjRow dim i := by
  rw [adjRow, List.mem_insertionSort, List.mem_filterMap]
  refine ⟨(dim : Int), by simp [bfsMoves], ?_⟩
  rw [if_pos ⟨by omega, by omega, Or.inr (Or.inr (Or.inl rfl))⟩]
  exact congrArg some (by omega)

lemma mem_adjRow_right (dim i : Nat) (hmod : (i + 1) % dim ≠ 0)
    (hlt : i + 1 < dim * dim) :
    i + 1 ∈ adjRow dim i := by
  rw [adjRow, List.mem_insertionSort, List.mem_filterMap]
  refine ⟨1, by simp [bfsMoves], ?_⟩
  rw [if_pos ⟨by omega, by omega, Or.inr (Or.inl ⟨hmod, rfl⟩)⟩]
  exact congrArg some (by omega)

/-- `ReachAvoid adj endn ex v`: starting from `v` there is a walk along
the (directed) adjacency lists, avoiding every node in `ex`, to some
node whose neighbour list contains `endn`. This is exactly the situation
in which the BFS, with `ex` already explored and `v` at the head of a
queued path, is still able to report the end node. -/
inductive ReachAvoid (adj : Nat → List Nat) (endn : Nat) (ex : List Nat) :
    Nat → Prop
  | base {v} : v ∉ ex → endn ∈ adj v → ReachAvoid adj endn ex v
  | step {v w} : v ∉ ex → w ∈ adj v → ReachAvoid adj endn ex w →
      ReachAvoid adj endn ex v

lemma ReachAvoid.head_not_mem {adj : Nat → List Nat} {endn : Nat}
    {ex : List Nat} {v : Nat} (h : ReachAvoid adj endn ex v) : v ∉ ex := by
  cases h with
  | base hv _ => exact hv
  | step hv _ _ => exact hv

/-- Marking one more node `node` as explored: either the witness walk
avoids it entirely, or it can be restarted at a neighbour of `node`. -/
lemma reachAvoid_extend {adj : Nat → List Nat} {endn node : Nat}
    {ex : List Nat} {v : Nat} (h : ReachAvoid adj endn ex v)
    (hnode : endn ∉ adj node) :
    ReachAvoid adj endn (ex ++ [node]) v ∨
      ∃ nb ∈ adj node, ReachAvoid adj endn (ex ++ [node]) nb := by
  induction h with
  | @base v' hv hend =>
    left
    refine ReachAvoid.base ?_ hend
    intro hmem
    rcases List.mem_append.mp hmem with h1 | h1
    · exact hv h1
    · rw [List.mem_singleton] at h1
      subst h1
      exact hnode hend
  | @step v' w' hv hw hwr ih =>
    rcases ih with ihl | ⟨nb, hnb, hranb⟩
    · by_cases hveq : v' = node
      · subst hveq
        exact Or.inr ⟨w', hw, ihl⟩
      · left
        refine ReachAvoid.step ?_ hw ihl
        intro hmem
        rcases List.mem_append.mp hmem with h1 | h1
        · exact hv h1
        · rw [List.mem_singleton] at h1
          exact hveq h1
    · exact Or.inr ⟨nb, hnb, hranb⟩

lemma nodup_lt_length_le (l : List Nat) (n : Nat) (h : l.Nodup)
    (hlt : ∀ x ∈ l, x < n) : l.length ≤ n := by
  have hsub : l ⊆ List.range n := fun x hx => List.mem_range.mpr (hlt x hx)
  simpa using (h.subperm hsub).length_le

/-- Completeness of the fueled BFS loop: as long as some queued path's
head still reaches (avoiding the explored set) a node adjacent to the
end node, and the fuel dominates the measure
`|queue| + 4·(n − |explored|)`, the loop reports a distance. -/
lemma bfsLoop_complete {adj : Nat → List Nat} {endn n : Nat}
    (hadj_lt : ∀ i, ∀ j ∈ adj i, j < n)
    (hadj_len : ∀ i, (adj i).length ≤ 4) :
    ∀ (fuel : Nat) (queue : List (List Nat)) (explored : List Nat),
      explored.Nodup →
      (∀ x ∈ explored, x < n) →
      (∀ p ∈ queue, ∃ v t, p = v :: t ∧ v < n) →
      queue.length + 4 * (n - explored.length) ≤ fuel →
      (∃ p ∈ queue, ∃ v t, p = v :: t ∧ ReachAvoid adj endn explored v) →
      ∃ d, bfsLoop adj endn fuel queue explored = some d := by
  intro fuel
  induction fuel with
  | zero =>
    intro queue explored _ _ _ hfuel hwit
    obtain ⟨p, hp, -⟩ := hwit
    have : queue.length = 0 := by omega
    rw [List.length_eq_zero] at this
    subst this
    exact absurd hp (by simp)
  | succ fuel ih =>
    intro queue explored hnd hexlt hshape hfuel hwit
    cases queue with
    | nil =>
      obtain ⟨p, hp, -⟩ := hwit
      exact absurd hp (by simp)
    | cons path rest =>
      obtain ⟨node, t, rfl, hnode_lt⟩ := hshape path (by simp)
      by_cases hexp : node ∈ explored
      · have hred : bfsLoop adj endn (fuel + 1) ((node :: t) :: rest)
            explored = bfsLoop adj endn fuel rest explored := by
          simp [bfsLoop, hexp]
        rw [hred]
        apply ih rest explored hnd hexlt
          (fun p hp => hshape p (by simp [hp]))
          (by simp at hfuel ⊢; omega)
        obtain ⟨p, hp, v, tv, hpv, hra⟩ := hwit
        rcases List.mem_cons.mp hp with rfl | hp'
        · cases hpv
          exact absurd hexp hra.head_not_mem
        · exact ⟨p, hp', v, tv, hpv, hra⟩
      · by_cases hfound : endn ∈ adj node
        · refine ⟨(node :: t).length, ?_⟩
          simp [bfsLoop, hexp, hfound]
        · have hred : bfsLoop adj endn (fuel + 1) ((node :: t) :: rest)
              explored =
              bfsLoop adj endn fuel
                (rest ++ (adj node).map (fun nb => nb :: node :: t))
                (explored ++ [node]) := by
            simp [bfsLoop, hexp, hfound]
          rw [hred]
          have hexlen : explored.length + 1 ≤ n := by
            have : (explored ++ [node]).Nodup := by
              simp [List.nodup_append, hnd, hexp]
            have := nodup_lt_length_le (explored ++ [node]) n this
              (by
                intro x hx
                rcases List.mem_append.mp hx with h1 | h1
                · exact hexlt x h1
                · rw [List.mem_singleton] at h1
                  subst h1
                  exact hnode_lt)
            simpa using this
          apply ih
          · simp [List.nodup_append, hnd, hexp]
          · intro x hx
            rcases List.mem_append.mp hx with h1 | h1
            · exact hexlt x h1
            · rw [List.mem_singleton] at h1
              subst h1
              exact hnode_lt
          · intro p hp
            rcases List.mem_append.mp hp with h1 | h1
            · exact hshape p (by simp [h1])
            · obtain ⟨nb, hnb, rfl⟩ := List.mem_map.mp h1
              exact ⟨nb, node :: t, rfl, hadj_lt node nb hnb⟩
          · have hlen : (rest ++ (adj node).map
                (fun nb => nb :: node :: t)).length =
                rest.length + (adj node).length := by simp
            have hdeg := hadj_len node
            have hq : ((node :: t) :: rest).length = rest.length + 1 := by
              simp
            rw [hlen]
            rw [hq] at hfuel
            simp only [List.length_append, List.length_singleton]
            omega
          · obtain ⟨p, hp, v, tv, hpv, hra⟩ := hwit
            rcases List.mem_cons.mp hp with rfl | hp'
            · cases hpv
              rcases reachAvoid_extend hra hfound with hl | ⟨nb, hnb, hranb⟩
              · exact absurd (by simp) (fun hc => hl.head_not_mem hc)
              · refine ⟨nb :: node :: t, ?_, nb, node :: t, rfl, hranb⟩
                rw [List.mem_append]
                exact Or.inr (List.mem_map.mpr ⟨nb, hnb, rfl⟩)
            · rcases reachAvoid_extend hra hfound with hl | ⟨nb, hnb, hranb⟩
              · exact ⟨p, by simp [hp'], v, tv, hpv, hl⟩
              · refine ⟨nb :: node :: t, ?_, nb, node :: t, rfl, hranb⟩
                rw [List.mem_append]
                exact Or.inr (List.mem_map.mpr ⟨nb, hnb, rfl⟩)

/-! ### Reachability in the (directed) BFS graph

The BFS moves are `[0, -dim, 1, dim]`: up, down and right, but no left
move (the `-1` displacement is `A[4]`, outside `A[:4]`). Still, for any
two nodes one of the two BFS directions can reach the other: whichever
node has the smaller (or equal) column can reach the one with the larger
column by vertical moves followed by right moves. -/

def bfsStep (dim : Nat) (a b : Nat) : Prop := b ∈ adjRow dim a

lemma rtg_down (dim : Nat) (c : Nat) (hc : c < dim) :
    ∀ (d r1 : Nat), r1 + d < dim →
      Relation.ReflTransGen (bfsStep dim) (r1 * dim + c)
        ((r1 + d) * dim + c) := by
  intro d
  induction d with
  | zero => intro r1 _; simpa using Relation.ReflTransGen.refl
  | succ d ih =>
    intro r1 hr
    refine Relation.ReflTransGen.tail (ih r1 (by omega)) ?_
    show ((r1 + d + 1) * dim + c) ∈ adjRow dim ((r1 + d) * dim + c)
    have := mem_adjRow_down dim ((r1 + d) * dim + c)
      (by nlinarith)
    have harith : (r1 + d) * dim + c + dim = (r1 + d + 1) * dim + c := by
      ring
    rwa [harith] at this

lemma rtg_up (dim : Nat) (c : Nat) (hc : c < dim) :
    ∀ (d r2 : Nat), r2 + d < dim →
      Relation.ReflTransGen (bfsStep dim) ((r2 + d) * dim + c)
        (r2 * dim + c) := by
  intro d
  induction d with
  | zero => intro r2 _; simpa using Relation.ReflTransGen.refl
  | succ d ih =>
    intro r2 hr
    refine Relation.ReflTransGen.head ?_ (by
      have := ih r2 (by omega)
      simpa using this)
    show ((r2 + d) * dim + c) ∈ adjRow dim ((r2 + (d + 1)) * dim + c)
    have hup := mem_adjRow_up dim ((r2 + (d + 1)) * dim + c)
      (by nlinarith) (by nlinarith)
    have harith : (r2 + (d + 1)) * dim + c - dim = (r2 + d) * dim + c := by
      have : (r2 + (d + 1)) * dim = (r2 + d) * dim + dim := by ring
      omega
    rwa [harith] at hup

lemma rtg_right (dim : Nat) (r : Nat) (hr : r < dim) :
    ∀ (d c1 : Nat), c1 + d < dim →
      Relation.ReflTransGen (bfsStep dim) (r * dim + c1)
        (r * dim + (c1 + d)) := by
  intro d
  induction d with
  | zero => intro c1 _; simpa using Relation.ReflTransGen.refl
  | succ d ih =>
    intro c1 hcd
    refine Relation.ReflTransGen.tail (ih c1 (by omega)) ?_
    show (r * dim + (c1 + d + 1)) ∈ adjRow dim (r * dim + (c1 + d))
    have hmod : (r * dim + (c1 + d) + 1) % dim ≠ 0 := by
      have heq : r * dim + (c1 + d) + 1 = dim * r + (c1 + d + 1) := by ring
      rw [heq, Nat.mul_add_mod dim r (c1 + d + 1),
        Nat.mod_eq_of_lt (show c1 + d + 1 < dim by omega)]
      omega
    have hlt : r * dim + (c1 + d) + 1 < dim * dim := by nlinarith
    have := mem_adjRow_right dim (r * dim + (c1 + d)) hmod hlt
    have harith : r * dim + (c1 + d) + 1 = r * dim + (c1 + d + 1) := by omega
    rwa [harith] at this

/-- Any node can reach any node of weakly larger column. -/
lemma rtg_of_col_le {dim : Nat} (hdim : 1 ≤ dim) {a b : Nat}
    (ha : a < dim * dim) (hb : b < dim * dim)
    (hcol : a % dim ≤ b % dim) :
    Relation.ReflTransGen (bfsStep dim) a b := by
  have hdim0 : 0 < dim := hdim
  have hca : a % dim < dim := Nat.mod_lt _ hdim0
  have hcb : b % dim < dim := Nat.mod_lt _ hdim0
  have hra : a / dim < dim := Nat.div_lt_of_lt_mul ha
  have hrb : b / dim < dim := Nat.div_lt_of_lt_mul hb
  have hasplit : a = (a / dim) * dim + a % dim := by
    rw [Nat.mul_comm]
    exact (Nat.div_add_mod a dim).symm
  have hbsplit : b = (b / dim) * dim + b % dim := by
    rw [Nat.mul_comm]
    exact (Nat.div_add_mod b dim).symm
  have hvert : Relation.ReflTransGen (bfsStep dim)
      ((a / dim) * dim + a % dim) ((b / dim) * dim + a % dim) := by
    rcases Nat.le_total (a / dim) (b / dim) with hle | hle
    · have := rtg_down dim (a % dim) hca (b / dim - a / dim) (a / dim)
        (by omega)
      rwa [show a / dim + (b / dim - a / dim) = b / dim by omega] at this
    · have := rtg_up dim (a % dim) hca (a / dim - b / dim) (b / dim)
        (by omega)
      rwa [show b / dim + (a / dim - b / dim) = a / dim by omega] at this
  have hhoriz : Relation.ReflTransGen (bfsStep dim)
      ((b / dim) * dim + a % dim) ((b / dim) * dim + b % dim) := by
    have := rtg_right dim (b / dim) hrb (b % dim - a % dim) (a % dim)
      (by omega)
    rwa [show a % dim + (b % dim - a % dim) = b % dim by omega] at this
  rw [hasplit, hbsplit]
  exact hvert.trans hhoriz

/-- A nonempty reachability witness converts into a `ReachAvoid`
witness (with nothing explored yet). -/
lemma rtg_to_reachAvoid {dim : Nat} {s e : Nat}
    (h : Relation.ReflTransGen (bfsStep dim) s e) (hne : s ≠ e) :
    ReachAvoid (adjRow dim) e [] s := by
  rcases (Relation.ReflTransGen.cases_tail h) with rfl | ⟨z, hz, hstep⟩
  · exact absurd rfl hne
  · clear h hne
    induction hz using Relation.ReflTransGen.head_induction_on with
    | refl => exact ReachAvoid.base (by simp) hstep
    | head hab _ ih => exact ReachAvoid.step (by simp) hab ih

/-- Whenever `start` has weakly smaller column than `end` the BFS from
`start` reports some distance. -/
lemma bfs_succeeds {dim : Nat} (hdim : 1 ≤ dim) {s e : Nat}
    (hs : s < dim * dim) (he : e < dim * dim) (hne : s ≠ e)
    (hcol : s % dim ≤ e % dim) : ∃ d, bfs dim s e = some d := by
  have hra : ReachAvoid (adjRow dim) e [] s :=
    rtg_to_reachAvoid (rtg_of_col_le hdim hs he hcol) hne
  refine bfsLoop_complete (n := dim * dim) (adjRow_lt dim)
    (adjRow_len dim) (4 * (dim * dim) + 1) [[s]] [] (by simp) (by simp)
    ?_ ?_ ?_
  · intro p hp
    rw [List.mem_singleton] at hp
    exact ⟨s, [], by simp [hp], hs⟩
  · simp
    omega
  · exact ⟨[s], by simp, s, [], rfl, hra⟩

/-! ### Invariants of the dict-building fold -/

lemma updDic_double_symm (d : Nat × Nat → Option Nat)
    (hd : ∀ x y, d (x, y) = d (y, x)) (u v w : Nat) :
    ∀ x y, updDic (updDic d (u, v) w) (v, u) w (x, y) =
      updDic (updDic d (u, v) w) (v, u) w (y, x) := by
  intro x y
  simp only [updDic, Prod.mk.injEq]
  by_cases hA : x = v ∧ y = u <;> by_cases hB : x = u ∧ y = v
  · rw [if_pos hA, if_pos (by tauto)]
  · rw [if_pos hA, if_neg (by tauto), if_pos (by tauto)]
  · rw [if_neg hA, if_pos hB, if_pos (by tauto)]
  · rw [if_neg hA, if_neg hB, if_neg (by tauto), if_neg (by tauto)]
    exact hd x y

lemma processPair_symm (dim : Nat) (d : Nat × Nat → Option Nat) (s e : Nat)
    (hd : ∀ x y, d (x, y) = d (y, x)) :
    ∀ x y, processPair dim d s e (x, y) = processPair dim d s e (y, x) := by
  intro x y
  unfold processPair
  split_ifs with hse
  · exact updDic_double_symm d hd (s + 1) (e + 1) 0 x y
  · cases hbfs : bfs dim s e with
    | none => exact hd x y
    | some dist => exact updDic_double_symm d hd (s + 1) (e + 1) dist x y

lemma processPair_diag_preserve (dim : Nat) (d : Nat × Nat → Option Nat)
    (s e a : Nat) (hd : d (a, a) = some 0) :
    processPair dim d s e (a, a) = some 0 := by
  unfold processPair
  split_ifs with hse
  · subst hse
    simp only [updDic, Prod.mk.injEq]
    by_cases h : a = s + 1 <;> simp [h, hd]
  · cases hbfs : bfs dim s e with
    | none => exact hd
    | some dist =>
      simp only [updDic, Prod.mk.injEq]
      rw [if_neg (by omega), if_neg (by omega)]
      exact hd

lemma processPair_diag_establish (dim : Nat) (d : Nat × Nat → Option Nat)
    (a : Nat) (ha : 1 ≤ a) :
    processPair dim d (a - 1) (a - 1) (a, a) = some 0 := by
  unfold processPair
  rw [if_pos rfl]
  simp only [updDic, Prod.mk.injEq]
  rw [if_pos (by omega)]

lemma processPair_isSome_preserve (dim : Nat) (d : Nat × Nat → Option Nat)
    (s e : Nat) (k : Nat × Nat) (hd : (d k).isSome = true) :
    (processPair dim d s e k).isSome = true := by
  unfold processPair
  split_ifs with hse
  · simp only [updDic]
    split_ifs <;> simp [hd]
  · cases hbfs : bfs dim s e with
    | none => exact hd
    | some dist =>
      simp only [updDic]
      split_ifs <;> simp [hd]

lemma processPair_offdiag_establish (dim : Nat)
    (d : Nat × Nat → Option Nat) (s e : Nat) (hne : s ≠ e) (dist : Nat)
    (hb : bfs dim s e = some dist) :
    (processPair dim d s e (s + 1, e + 1)).isSome = true ∧
    (processPair dim d s e (e + 1, s + 1)).isSome = true := by
  unfold processPair
  rw [if_neg hne, hb]
  constructor <;> · simp only [updDic]; split_ifs <;> simp

lemma foldl_dic_preserve {α : Type} {Q : (Nat × Nat → Option Nat) → Prop}
    {f : (Nat × Nat → Option Nat) → α → Nat × Nat → Option Nat}
    (hf : ∀ d x, Q d → Q (f d x)) :
    ∀ (l : List α) (d : Nat × Nat → Option Nat), Q d → Q (l.foldl f d) := by
  intro l
  induction l with
  | nil => intro d hd; exact hd
  | cons a l ih => intro d hd; exact ih (f d a) (hf d a hd)

lemma foldl_dic_establish {α : Type} {Q : (Nat × Nat → Option Nat) → Prop}
    {f : (Nat × Nat → Option Nat) → α → Nat × Nat → Option Nat}
    (hf : ∀ d x, Q d → Q (f d x)) :
    ∀ (l : List α) (x : α), x ∈ l → (∀ d, Q (f d x)) →
      ∀ d : Nat × Nat → Option Nat, Q (l.foldl f d) := by
  intro l
  induction l with
  | nil => intro x hx; exact absurd hx (by simp)
  | cons a l ih =>
    intro x hx hest d
    rcases List.mem_cons.mp hx with rfl | hx'
    · exact foldl_dic_preserve hf l (f d x) (hest d)
    · exact ih x hx' hest (f d a)

lemma mem_pairList {n s e : Nat} (hs : s < n) (he : e < n) :
    (s, e) ∈ (List.range n).flatMap (fun s =>
      (List.range n).map (fun e => (s, e))) := by
  rw [List.mem_flatMap]
  exact ⟨s, List.mem_range.mpr hs,
    List.mem_map.mpr ⟨e, List.mem_range.mpr he, rfl⟩⟩

/-! ### Claim C3 -/

/-- C3: for every `dim ≥ 1` the distance dict built by
`eval_shortest_distances` is total over all ordered pairs of 1-based
nodes (an entry exists for every `(a, b)` with `a, b ∈ 1..dim²`), and
the recorded values satisfy `distance(a, b) = distance(b, a)` and
`distance(a, a) = 0`. Totality holds even though the BFS graph lacks
left moves: when BFS from `a-1` cannot reach `b-1`, the symmetric write
of the BFS run from `b-1` still fills key `(a, b)`. -/
theorem c3_distance_table (dim : Nat) (hdim : 1 ≤ dim) (a b : Nat)
    (ha1 : 1 ≤ a) (ha2 : a ≤ dim * dim) (hb1 : 1 ≤ b)
    (hb2 : b ≤ dim * dim) :
    (eval_shortest_distances dim (a, b)).isSome = true ∧
    eval_shortest_distances dim (a, b) =
      eval_shortest_distances dim (b, a) ∧
    eval_shortest_distances dim (a, a) = some 0 := by
  have hsym : ∀ x y, eval_shortest_distances dim (x, y) =
      eval_shortest_distances dim (y, x) := by
    have := foldl_dic_preserve
      (Q := fun d => ∀ x y, d (x, y) = d (y, x))
      (f := fun d se => processPair dim d se.1 se.2)
      (fun d se hd => processPair_symm dim d se.1 se.2 hd)
      ((List.range (dim * dim)).flatMap (fun s =>
        (List.range (dim * dim)).map (fun e => (s, e))))
      (fun _ => none) (fun _ _ => rfl)
    exact this
  have hdiag : ∀ c, 1 ≤ c → c ≤ dim * dim →
      eval_shortest_distances dim (c, c) = some 0 := by
    intro c hc1 hc2
    exact foldl_dic_establish
      (Q := fun d => d (c, c) = some 0)
      (f := fun d se => processPair dim d se.1 se.2)
      (fun d se hd => processPair_diag_preserve dim d se.1 se.2 c hd)
      _ (c - 1, c - 1) (mem_pairList (by omega) (by omega))
      (fun d => processPair_diag_establish dim d c hc1)
      (fun _ => none)
  have htotal : (eval_shortest_distances dim (a, b)).isSome = true := by
    by_cases hab : a = b
    · subst hab
      rw [hdiag a ha1 ha2]
      rfl
    · rcases Nat.le_total ((a - 1) % dim) ((b - 1) % dim) with hcol | hcol
      · obtain ⟨dist, hb'⟩ := bfs_succeeds hdim
          (show a - 1 < dim * dim by omega)
          (show b - 1 < dim * dim by omega)
          (by omega) hcol
        refine foldl_dic_establish
          (Q := fun d => (d (a, b)).isSome = true)
          (f := fun d se => processPair dim d se.1 se.2)
          (fun d se hd => processPair_isSome_preserve dim d se.1 se.2
            (a, b) hd)
          _ (a - 1, b - 1) (mem_pairList (by omega) (by omega))
          (fun d => ?_) (fun _ => none)
        have := (processPair_offdiag_establish dim d (a - 1) (b - 1)
          (by omega) dist hb').1
        rwa [show a - 1 + 1 = a by omega, show b - 1 + 1 = b by omega]
          at this
      · obtain ⟨dist, hb'⟩ := bfs_succeeds hdim
          (show b - 1 < dim * dim by omega)
          (show a - 1 < dim * dim by omega)
          (by omega) hcol
        refine foldl_dic_establish
          (Q := fun d => (d (a, b)).isSome = true)
          (f := fun d se => processPair dim d se.1 se.2)
          (fun d se hd => processPair_isSome_preserve dim d se.1 se.2
            (a, b) hd)
          _ (b - 1, a - 1) (mem_pairList (by omega) (by omega))
          (fun d => ?_) (fun _ => none)
        have := (processPair_offdiag_establish dim d (b - 1) (a - 1)
          (by omega) dist hb').2
        rwa [show a - 1 + 1 = a by omega, show b - 1 + 1 = b by omega]
          at this
  exact ⟨htotal, hsym a b, hdiag a ha1 ha2⟩

set_option maxRecDepth 40000 in
/-- C3 witness: the distance table of the 2×2 grid at the pair (1, 4). -/
theorem c3_witness :
    (eval_shortest_distances 2 (1, 4)).isSome = true ∧
    eval_shortest_distances 2 (1, 4) = eval_shortest_distances 2 (4, 1) ∧
    eval_shortest_distances 2 (1, 1) = some 0 :=
  c3_distance_table 2 (by decide) 1 4 (by decide) (by decide) (by decide)
    (by decide)
